import Mathlib

/-!
Verification of the repulsive-curves core against its specification.

The repository ships the driver (`src/src/lws_app.cpp`) and the exported
C API declarations (`src/include/export/mvproduct.h`).  The numerical
engine itself (PolyCurveNetwork, BVHNode3D, BlockClusterTree,
TPEFlowSolverSC) is declared and called from these files but its
implementation is not part of the sources; wherever a definition below
embeds one of those missing components it is modelled from the
specification and its doc comment says so.  Scalars of the C++ code
(`double`) are modelled as exact real numbers.
-/

namespace LWS

/-- A point or vector of ℝ³, modelling `Vector3` / `std::array of 3 doubles`. -/
def Vec3 : Type := ℝ × ℝ × ℝ

/-- Componentwise vector addition. -/
def vadd (a b : Vec3) : Vec3 := (a.1 + b.1, a.2.1 + b.2.1, a.2.2 + b.2.2)

/-- Componentwise vector subtraction. -/
def vsub (a b : Vec3) : Vec3 := (a.1 - b.1, a.2.1 - b.2.1, a.2.2 - b.2.2)

/-- Scalar multiplication of a vector. -/
def vsmul (t : ℝ) (a : Vec3) : Vec3 := (t * a.1, t * a.2.1, t * a.2.2)

/-- Euclidean dot product on ℝ³. -/
def vdot (a b : Vec3) : ℝ := a.1 * b.1 + a.2.1 * b.2.1 + a.2.2 * b.2.2

/-- The zero vector. -/
def vzero : Vec3 := ((0 : ℝ), (0 : ℝ), (0 : ℝ))

instance : Inhabited Vec3 := ⟨vzero⟩

/-- Squared Euclidean norm. -/
def normSq (a : Vec3) : ℝ := vdot a a

/-- Squared Euclidean distance between two points. -/
def distSq (x y : Vec3) : ℝ := normSq (vsub x y)

/-- Euclidean distance between two points. -/
noncomputable def dist3 (x y : Vec3) : ℝ := Real.sqrt (distSq x y)

/-- The polygonal curve network: vertex positions, edges as ordered pairs of
vertex indices, and the indices of pinned vertices.  Embeds the data model of
`PolyCurveNetwork` (positions, `edge_verts` table, pin flags) described in the
spec; the implementation is not under `src/`. -/
structure PolyCurveNetwork where
  positions : List Vec3
  edges : List (ℕ × ℕ)
  pins : List ℕ

/-- Abstract error kinds surfaced to the caller (spec section 7). -/
inductive ErrorKind where
  | invalidTopology
  | invalidExponents
  deriving DecidableEq

/-- Position of vertex `k`, with a default for out-of-range indices. -/
def posAt (c : PolyCurveNetwork) (k : ℕ) : Vec3 := c.positions.getD k vzero

/-- Edge `i` of the curve as an ordered index pair. -/
def edgeAt (c : PolyCurveNetwork) (i : ℕ) : ℕ × ℕ := c.edges.getD i (0, 0)

/-- An edge's endpoints as an order-normalized pair, used to detect duplicate
edges regardless of orientation. -/
def unorderedEnds (e : ℕ × ℕ) : ℕ × ℕ := if e.1 ≤ e.2 then e else (e.2, e.1)

/-- Modelled from the spec: `createCurveNetwork` (declared in
`src/include/export/mvproduct.h`; its implementation is not under `src/`).
Per the spec's InvalidTopology error kind, construction fails on an empty
curve, an out-of-range edge index, a self-loop edge, or a duplicate edge;
otherwise it produces the curve with no pins applied. -/
def createCurveNetwork (positions : List Vec3) (edges : List (ℕ × ℕ)) :
    Except ErrorKind PolyCurveNetwork :=
  if positions.isEmpty ∨ edges.isEmpty then
    Except.error ErrorKind.invalidTopology
  else if (∀ e ∈ edges, e.1 < positions.length ∧ e.2 < positions.length ∧ e.1 ≠ e.2)
      ∧ (edges.map unorderedEnds).Nodup then
    Except.ok ⟨positions, edges, []⟩
  else
    Except.error ErrorKind.invalidTopology

/-- Armijo constant `c₁ = 10⁻⁴` of the backtracking line search (spec 4.5). -/
noncomputable def armijoC1 : ℝ := 1 / 10000

/-- Maximum number of step halvings before the line search fails (spec 4.5). -/
def maxHalvings : ℕ := 16

/-- Modelled from the spec: the backtracking line search of the flow solver
(`TPEFlowSolverSC`, not under `src/`).  `Efun t` is the energy at `x − t·ĝ`,
`E0` the energy at `x`, `gdot` the inner product `⟨g, ĝ⟩`.  A step size `t` is
accepted when the Armijo condition `Efun t ≤ E0 − c₁ t ⟨g, ĝ⟩` holds; otherwise
`t` is halved, failing once the fuel (one try plus `maxHalvings` halvings) is
spent. -/
noncomputable def backtrack (Efun : ℝ → ℝ) (E0 gdot : ℝ) : ℕ → ℝ → Option ℝ
  | 0, _ => none
  | fuel + 1, t =>
      if Efun t ≤ E0 - armijoC1 * t * gdot then some t
      else backtrack Efun E0 gdot fuel (t / 2)

/-- Positions after moving from `x` along `−ĝ` with step size `t`. -/
def updatePos (x ghat : List Vec3) (t : ℝ) : List Vec3 :=
  List.zipWith (fun p d => vsub p (vsmul t d)) x ghat

/-- Inner product of two vertex-vector fields, `⟨g, ĝ⟩`. -/
def dotLV (g h : List Vec3) : ℝ := (List.zipWith vdot g h).sum

/-- Modelled from the spec: one line-search step of the flow solver
(`TPEFlowSolverSC::StepSobolevLS` and variants, not under `src/`; spec 4.5
steps 4-5 and error kind LineSearchExhausted).  `E` is the energy functional,
`x` the current positions, `g` the L² gradient and `ghat` the projected
Sobolev gradient.  The initial step size is modelled as 1 (the `2× previous
accepted` variant does not affect the claims), and the constrained
back-projection of spec 4.4 is not modelled: an accepted step returns the
line-search positions `x − t·ĝ`.  On exhaustion the step reports
`good_step = false` and returns the positions unchanged. -/
noncomputable def flowStep (E : List Vec3 → ℝ) (x g ghat : List Vec3) :
    Bool × List Vec3 :=
  match backtrack (fun t => E (updatePos x ghat t)) (E x) (dotLV g ghat)
      (maxHalvings + 1) 1 with
  | none => (false, x)
  | some t => (true, updatePos x ghat t)

/-- Modelled from the spec: the near-minimum test of the solver
(`TPEFlowSolverSC`, not under `src/`; spec 4.5 step 6).  The solver reports
`soboNormZero` when the alignment proxy `⟨g, ĝ⟩ / (‖g‖ ‖ĝ‖)` is at most
`10⁻⁴`. -/
noncomputable def soboNormZeroFlag (gdot gnorm ghatnorm : ℝ) : Bool :=
  if gdot / (gnorm * ghatnorm) ≤ 1 / 10000 then true else false

/-- Outcome of one solver step as observed by the driver
(`lws_app.cpp` lines 262-289): the line-search verdict, the solver's
near-minimum flag, and whether the target length has been reached. -/
structure SolverOutcome where
  good_step : Bool
  soboNormZero : Bool
  targetLengthReached : Bool

/-- The driver's flow-control state (`LWSApp` members `LWSOptions::runTPE`,
`currentStep`, `numStuckIterations`). -/
structure DriverFlags where
  runTPE : Bool
  currentStep : ℤ
  numStuckIterations : ℤ

/-- The condition under which the driver stops the flow for lack of progress
(`lws_app.cpp` lines 286-294): the step was bad, the incremented stuck
counter reaches 5, and the target length has been reached. -/
def stuckStopFires (s : DriverFlags) (o : SolverOutcome) : Prop :=
  o.good_step = false ∧ 5 ≤ s.numStuckIterations + 1 ∧ o.targetLengthReached = true

instance (s : DriverFlags) (o : SolverOutcome) : Decidable (stuckStopFires s o) := by
  unfold stuckStopFires
  infer_instance

/-- The condition under which the driver stops the flow at the step limit
(`lws_app.cpp` lines 295-299): the step was good and the incremented step
counter reaches a positive `stepLimit`. -/
def limitStopFires (stepLimit : ℤ) (s : DriverFlags) (o : SolverOutcome) : Prop :=
  o.good_step = true ∧ 0 < stepLimit ∧ stepLimit ≤ s.currentStep + 1

instance (l : ℤ) (s : DriverFlags) (o : SolverOutcome) :
    Decidable (limitStopFires l s o) := by
  unfold limitStopFires
  infer_instance

/-- The driver's flow-control update after one solver step, embedding
`LWSApp::customWindow` lines 248-303: `currentStep` is incremented before the
step; if the solver reports `soboNormZero` the flow is stopped; on a bad step
the stuck counter is incremented and the flow stops when the stuck stop fires;
on a good step either the step-limit stop fires, or the stuck counter is reset
to zero. -/
def stepFlags (stepLimit : ℤ) (s : DriverFlags) (o : SolverOutcome) : DriverFlags :=
  let cs := s.currentStep + 1
  let run1 := if o.soboNormZero then false else s.runTPE
  if o.good_step = false then
    ⟨if stuckStopFires s o then false else run1, cs, s.numStuckIterations + 1⟩
  else if limitStopFires stepLimit s o then
    ⟨false, cs, s.numStuckIterations⟩
  else
    ⟨run1, cs, 0⟩

/-- The kinds of linear constraint the solver can apply
(`ConstraintType` values used in `lws_app.cpp`). -/
inductive ConstraintType where
  | barycenter
  | edgeLengths
  | pinnedVertex
  | pinnedTangent
  | surfacePin
  deriving DecidableEq

/-- The constraint defaulting of `LWSApp::initSolver` (`lws_app.cpp` lines
440-447): when the solver does not exist yet and no constraints were
specified, the applied constraints become barycenter followed by edge
lengths; otherwise the list is left unchanged. -/
def initSolverConstraints (solverExists : Bool) (cs : List ConstraintType) :
    List ConstraintType :=
  if solverExists then cs
  else if cs.isEmpty then [ConstraintType.barycenter, ConstraintType.edgeLengths]
  else cs

/-- Length of edge `i`, `‖p₁ − p₀‖` (spec data model; `CurveEdge` length). -/
noncomputable def edgeLength (c : PolyCurveNetwork) (i : ℕ) : ℝ :=
  dist3 (posAt c (edgeAt c i).1) (posAt c (edgeAt c i).2)

/-- Midpoint of edge `i`, `½(p₀ + p₁)`. -/
noncomputable def edgeMid (c : PolyCurveNetwork) (i : ℕ) : Vec3 :=
  vsmul (1 / 2) (vadd (posAt c (edgeAt c i).1) (posAt c (edgeAt c i).2))

/-- Unit tangent of edge `i`, `(p₁ − p₀)/length`. -/
noncomputable def edgeTangent (c : PolyCurveNetwork) (i : ℕ) : Vec3 :=
  vsmul (1 / edgeLength c i) (vsub (posAt c (edgeAt c i).2) (posAt c (edgeAt c i).1))

/-- Total length of the curve, the sum of its edge lengths
(`PolyCurveNetwork::TotalLength`, not under `src/`; spec data model). -/
noncomputable def totalLength (c : PolyCurveNetwork) : ℝ :=
  ((List.range c.edges.length).map (fun i => edgeLength c i)).sum

/-- Average edge length as computed by the driver
(`lws_app.cpp` line 305): `TotalLength() / NumEdges()`. -/
noncomputable def averageLength (c : PolyCurveNetwork) : ℝ :=
  totalLength c / (c.edges.length : ℝ)

/-- Modelled from the spec: `PolyCurveNetwork::Subdivide` (called from
`LWSApp::SubdivideCurve`, implementation not under `src/`).  Every edge is
split at its midpoint: the midpoints are appended after the original
positions, so positions at original vertex indices are untouched, and each
edge `(u, v)` with index `e` becomes the two edges `(u, n+e)` and `(n+e, v)`.
Pins refer to original vertex indices, which keep their numbering, so the
pin list is carried over unchanged. -/
noncomputable def subdivideCurve (c : PolyCurveNetwork) : PolyCurveNetwork :=
  let n := c.positions.length
  ⟨c.positions ++ c.edges.map (fun e => vsmul (1 / 2) (vadd (posAt c e.1) (posAt c e.2))),
   c.edges.enum.flatMap (fun ke => [(ke.2.1, n + ke.1), (n + ke.1, ke.2.2)]),
   c.pins⟩

/-- The driver state acted on by the subdivision check: the subdivision
counter, the current curve, and a flag recording whether the acceleration
caches (BVH, BCT, multigrid) are still valid.  Modelled from the spec: cache
invalidation on subdivision (`TPEFlowSolverSC::ReplaceCurve`, not under
`src/`) is represented by clearing `cachesValid`. -/
structure SubdivisionState where
  subdivideCount : ℤ
  curve : PolyCurveNetwork
  cachesValid : Bool

/-- The subdivision check run by the driver after every step
(`lws_app.cpp` lines 305-310): when the average edge length exceeds twice the
initial average edge length and the subdivision counter is below the
subdivision limit, the counter is incremented and the curve subdivided
(invalidating the caches); otherwise nothing happens. -/
noncomputable def subdivisionPhase (subdivideLimit : ℤ) (initialAverageLength : ℝ)
    (s : SubdivisionState) : SubdivisionState :=
  if 2 * initialAverageLength < averageLength s.curve
      ∧ s.subdivideCount < subdivideLimit then
    ⟨s.subdivideCount + 1, subdivideCurve s.curve, false⟩
  else s

/-- An admissible block of the block-cluster tree: two clusters of edge
indices with their weighted centroids (spec 4.2). -/
structure AdmBlock (m : ℕ) where
  A : Finset (Fin m)
  B : Finset (Fin m)
  cA : Vec3
  cB : Vec3

/-- Modelled from the spec: the data of a `BlockClusterTree` over a curve
with `m` edges (implementation not under `src/`; spec 4.2): edge dual masses
`ell`, edge midpoints `mid`, the kernel `G_s` as a profile of the squared
distance (for the spec's kernel, `kernelProfile d² = (d²)^(−(2s+1)/2)`), the
admissible block list, the inadmissible leaf-pair list, and the precomputed
diagonal term. -/
structure BlockClusterTree (m : ℕ) where
  ell : Fin m → ℝ
  mid : Fin m → Vec3
  kernelProfile : ℝ → ℝ
  admBlocks : List (AdmBlock m)
  inadmBlocks : List (Fin m × Fin m)
  diag : Fin m → ℝ

/-- Contribution of one admissible block to entry `i` of `A v` (spec 4.2
step 1): the aggregated source of `B` scattered over `A` with the cluster
kernel value, plus the symmetric contribution for `B` from `A`. -/
def admContribution {m : ℕ} (b : BlockClusterTree m) (blk : AdmBlock m)
    (v : Fin m → ℝ) (i : Fin m) : ℝ :=
  (if i ∈ blk.A then
    b.ell i * b.kernelProfile (distSq blk.cA blk.cB) * ∑ j ∈ blk.B, b.ell j * v j
   else 0)
  + (if i ∈ blk.B then
    b.ell i * b.kernelProfile (distSq blk.cB blk.cA) * ∑ j ∈ blk.A, b.ell j * v j
   else 0)

/-- Contribution of one inadmissible leaf pair `(i, j)` to `A v` (spec 4.2
step 2), in the symmetrized form mandated by the spec for the CG inner loop:
the contributions of `(i, j)` and `(j, i)` are averaged. -/
noncomputable def inadmContribution {m : ℕ} (b : BlockClusterTree m)
    (p : Fin m × Fin m) (v : Fin m → ℝ) (i : Fin m) : ℝ :=
  (1 / 2) * (if i = p.1 then
    b.ell p.1 * b.kernelProfile (distSq (b.mid p.1) (b.mid p.2)) * b.ell p.2 * v p.2
   else 0)
  + (1 / 2) * (if i = p.2 then
    b.ell p.2 * b.kernelProfile (distSq (b.mid p.2) (b.mid p.1)) * b.ell p.1 * v p.1
   else 0)

/-- The metric operator apply `y = A v` (exported as
`multiplyMetricWithVector` in `src/include/export/mvproduct.h`; the
implementation is not under `src/` and is modelled from spec 4.2): admissible
low-rank contributions, symmetrized inadmissible direct contributions, and
the diagonal term. -/
noncomputable def multiplyMetricWithVector {m : ℕ} (b : BlockClusterTree m)
    (v : Fin m → ℝ) : Fin m → ℝ := fun i =>
  (b.admBlocks.map (fun blk => admContribution b blk v i)).sum
  + (b.inadmBlocks.map (fun p => inadmContribution b p v i)).sum
  + b.diag i * v i

/-- Dot product of two edge-indexed vectors of length `m`. -/
def dotFin {m : ℕ} (v w : Fin m → ℝ) : ℝ := ∑ i, v i * w i

/-- Modelled from the spec: construction of the block-cluster tree data from
a curve (spec 4.2).  The Sobolev order is `s = (β − 1)/α − 1` and the kernel
is `G_s(x, y) = ‖x − y‖^(−(2s+1))`, written as a profile of the squared
distance.  The dual-tree traversal that partitions the index pairs into
admissible and inadmissible blocks is abstracted to the exact partition (all
off-diagonal pairs inadmissible, no admissible blocks, as in the `sep → 0`
limit); no claim depends on the partition, and the symmetry claim C1 is
proved for every block structure.  The diagonal is modelled as the row-sum
term; its exact analytic self term is not specified and no claim depends on
it. -/
noncomputable def buildBlockClusterTree (c : PolyCurveNetwork)
    (sep alpha beta : ℝ) : BlockClusterTree c.edges.length :=
  let m := c.edges.length
  let s := (beta - 1) / alpha - 1
  let ell : Fin m → ℝ := fun i => edgeLength c i.val
  let mid : Fin m → Vec3 := fun i => edgeMid c i.val
  let kp : ℝ → ℝ := fun d2 => d2 ^ (-(2 * s + 1) / 2)
  ⟨ell, mid, kp, [],
   (List.finRange m).flatMap (fun i =>
     (List.finRange m).filterMap (fun j => if i = j then none else some (i, j))),
   fun i => ∑ j, if j = i then 0 else ell i * kp (distSq (mid i) (mid j)) * ell j⟩

/-- The exported BCT constructor `createBlockClusterTree`
(`src/include/export/mvproduct.h`; implementation not under `src/`, modelled
from the spec).  Per the spec's InvalidExponents error kind, construction
fails when `α ≤ 0` or `β ≤ α + 1` (kernel not integrable); otherwise the
block-cluster tree for the curve is produced. -/
noncomputable def createBlockClusterTree (c : PolyCurveNetwork)
    (sep alpha beta : ℝ) : Except ErrorKind (BlockClusterTree c.edges.length) :=
  if alpha ≤ 0 ∨ beta ≤ alpha + 1 then Except.error ErrorKind.invalidExponents
  else Except.ok (buildBlockClusterTree c sep alpha beta)

/-- Sum of a list of vectors. -/
def vsum (l : List Vec3) : Vec3 := l.foldr vadd vzero

/-- The discrete tangent-point kernel `k_{α,β}(m_i, m_j, T_i)` (spec 4.1):
`‖P_T (m_j − m_i)‖^α / ‖m_j − m_i‖^β` with `P_T` the projection orthogonal
to the unit tangent `T`. -/
noncomputable def tangentPointKernel (alpha beta : ℝ) (mi mj ti : Vec3) : ℝ :=
  let d := vsub mj mi
  let pr := vsub d (vsmul (vdot ti d) ti)
  Real.sqrt (normSq pr) ^ alpha / Real.sqrt (normSq d) ^ beta

/-- Modelled from the spec: the analytic derivative of the tangent-point
kernel with respect to the near edge's midpoint (spec 4.1, gradient as a sum
of per-pair analytic derivatives).  With `d = m_j − m_i`, `P` the projection
orthogonal to `T_i`, `pn = ‖P d‖` and `dn = ‖d‖`, the derivative of
`pn^α / dn^β` in `d` is `α pn^(α−2) dn^(−β) · P d − β pn^α dn^(−β−2) · d`,
and the derivative in `m_i` is its negation. -/
noncomputable def tangentPointKernelGrad (alpha beta : ℝ)
    (mi mj ti : Vec3) : Vec3 :=
  let d := vsub mj mi
  let pr := vsub d (vsmul (vdot ti d) ti)
  let pn := Real.sqrt (normSq pr)
  let dn := Real.sqrt (normSq d)
  vsmul (-1)
    (vsub (vsmul (alpha * pn ^ (alpha - 2) / dn ^ beta) pr)
          (vsmul (beta * pn ^ alpha / dn ^ (beta + 2)) d))

/-- Modelled from the spec: the gradient entry for edge `i`, the sum over
the other edges `j` of the analytic kernel derivative weighted by the dual
masses `ℓ_i ℓ_j` (spec 4.1).  The Barnes-Hut far-field clustering is
abstracted to the exact sum; no claim depends on the values, only on the
edge-indexed shape of the output. -/
noncomputable def gradientAtEdge (c : PolyCurveNetwork) (alpha beta : ℝ)
    (i : ℕ) : Vec3 :=
  vsum ((List.range c.edges.length).map (fun j =>
    if j = i then vzero
    else vsmul (edgeLength c i * edgeLength c j)
      (tangentPointKernelGrad alpha beta (edgeMid c i) (edgeMid c j)
        (edgeTangent c i))))

/-- A BVH handle bound to the current positions of a curve
(`createBVHForEnergy` in `src/include/export/mvproduct.h`).  Modelled from
the spec: the spatial hierarchy itself is abstracted to its binding to the
curve; no claim depends on the tree structure. -/
structure BVHNode3D where
  curve : PolyCurveNetwork

/-- The exported BVH constructor (`src/include/export/mvproduct.h`). -/
def createBVHForEnergy (c : PolyCurveNetwork) : BVHNode3D := ⟨c⟩

/-- The exported gradient evaluation `evaluateGradient`
(`src/include/export/mvproduct.h` lines 58-65; implementation not under
`src/`, modelled from the header contract and the spec): the output is a
vector of size m, one entry per edge, where m is the number of edges of the
curve; mapping to vertices is left to the caller. -/
noncomputable def evaluateGradient (c : PolyCurveNetwork) (root : BVHNode3D)
    (alpha beta : ℝ) : List Vec3 :=
  (List.range c.edges.length).map (fun i => gradientAtEdge c alpha beta i)

/-- The exported energy evaluation `evaluateEnergy`
(`src/include/export/mvproduct.h`; modelled from spec 4.1 as the exact
double sum with the self pair excluded and the half factor for double
counting). -/
noncomputable def evaluateEnergy (c : PolyCurveNetwork) (root : BVHNode3D)
    (alpha beta : ℝ) : ℝ :=
  (1 / 2) * ((List.range c.edges.length).map (fun i =>
    ((List.range c.edges.length).map (fun j =>
      if j = i then 0
      else tangentPointKernel alpha beta (edgeMid c i) (edgeMid c j)
            (edgeTangent c i) * edgeLength c i * edgeLength c j)).sum)).sum

/-- The unit vector along the first axis, used in concrete test inputs. -/
def vone : Vec3 := ((1 : ℝ), (0 : ℝ), (0 : ℝ))

/-- A concrete one-edge test curve of length 2 with vertex 0 pinned, used as
a concrete input in witnesses. -/
def tcSub : PolyCurveNetwork :=
  ⟨[((0 : ℝ), (0 : ℝ), (0 : ℝ)), ((2 : ℝ), (0 : ℝ), (0 : ℝ))], [(0, 1)], [0]⟩

/-- The curve produced by a successful concrete construction, used in the
construction witness. -/
def tcOk : PolyCurveNetwork := ⟨[vzero, vone], [(0, 1)], []⟩

/-- A constant-zero energy functional, used as a concrete degenerate input. -/
def zeroEnergy : List Vec3 → ℝ := fun _ => 0

/-- A constant-one energy functional, used as a concrete input on which the
line search can never make progress. -/
def oneEnergy : List Vec3 → ℝ := fun _ => 1

/-- The energy functional reading the first coordinate of the first vertex,
used as a concrete input on which the line search accepts immediately. -/
def coordEnergy : List Vec3 → ℝ := fun ps => ps.headI.1

/-- A rejected solver step with the target length not reached. -/
def badO : SolverOutcome := ⟨false, false, false⟩

/-- An accepted solver step. -/
def goodO : SolverOutcome := ⟨true, false, false⟩

/-- A rejected solver step with the target length reached. -/
def lastO : SolverOutcome := ⟨false, false, true⟩

section Theorems

/-- Squared distance is symmetric in its two arguments. -/
theorem distSq_comm (x y : Vec3) : distSq x y = distSq y x := by
  unfold distSq normSq vdot vsub
  ring

/-- Claim C7: curve construction fails on a duplicate edge, an out-of-range
edge index, a self-loop edge, or an empty curve, and every edge of a
successfully constructed curve references two distinct vertex indices within
bounds. -/
theorem createCurveNetwork_topology_validation (ps : List Vec3)
    (es : List (ℕ × ℕ)) :
    (¬ (es.map unorderedEnds).Nodup →
      createCurveNetwork ps es = Except.error ErrorKind.invalidTopology)
    ∧ ((∃ e ∈ es, ps.length ≤ e.1 ∨ ps.length ≤ e.2) →
      createCurveNetwork ps es = Except.error ErrorKind.invalidTopology)
    ∧ ((∃ e ∈ es, e.1 = e.2) →
      createCurveNetwork ps es = Except.error ErrorKind.invalidTopology)
    ∧ ((ps = [] ∨ es = []) →
      createCurveNetwork ps es = Except.error ErrorKind.invalidTopology)
    ∧ (∀ c, createCurveNetwork ps es = Except.ok c →
      ∀ e ∈ c.edges, e.1 ≠ e.2 ∧ e.1 < c.positions.length
        ∧ e.2 < c.positions.length) := by
  unfold createCurveNetwork
  by_cases h0 : ps.isEmpty ∨ es.isEmpty
  · rw [if_pos h0]
    exact ⟨fun _ => rfl, fun _ => rfl, fun _ => rfl, fun _ => rfl,
      fun c hc => by cases hc⟩
  · rw [if_neg h0]
    by_cases h1 : (∀ e ∈ es, e.1 < ps.length ∧ e.2 < ps.length ∧ e.1 ≠ e.2)
        ∧ (es.map unorderedEnds).Nodup
    · rw [if_pos h1]
      refine ⟨fun hnd => absurd h1.2 hnd, ?_, ?_, ?_, ?_⟩
      · rintro ⟨e, he, hor⟩
        have := h1.1 e he
        omega
      · rintro ⟨e, he, heq⟩
        exact absurd heq (h1.1 e he).2.2
      · rintro (hps | hes)
        · exact absurd (by simp [hps]) h0
        · exact absurd (by simp [hes]) h0
      · intro c hc e he
        cases hc
        exact ⟨(h1.1 e he).2.2, (h1.1 e he).1, (h1.1 e he).2.1⟩
    · rw [if_neg h1]
      exact ⟨fun _ => rfl, fun _ => rfl, fun _ => rfl, fun _ => rfl,
        fun c hc => by cases hc⟩

/-- Witness for C7: the validation theorem applied at concrete inputs
exercising each failure cause and the success guarantee. -/
theorem createCurveNetwork_topology_validation_witness :
    createCurveNetwork [] [] = Except.error ErrorKind.invalidTopology
    ∧ createCurveNetwork [vzero, vone] [(0, 1), (1, 0)]
        = Except.error ErrorKind.invalidTopology
    ∧ createCurveNetwork [vzero] [(0, 2)]
        = Except.error ErrorKind.invalidTopology
    ∧ createCurveNetwork [vzero, vone] [(1, 1)]
        = Except.error ErrorKind.invalidTopology
    ∧ (∀ e ∈ tcOk.edges, e.1 ≠ e.2 ∧ e.1 < tcOk.positions.length
        ∧ e.2 < tcOk.positions.length) := by
  refine ⟨(createCurveNetwork_topology_validation [] []).2.2.2.1 (Or.inl rfl),
    (createCurveNetwork_topology_validation [vzero, vone] [(0, 1), (1, 0)]).1
      (by simp [unorderedEnds]),
    (createCurveNetwork_topology_validation [vzero] [(0, 2)]).2.1
      ⟨(0, 2), by simp, by simp⟩,
    (createCurveNetwork_topology_validation [vzero, vone] [(1, 1)]).2.2.1
      ⟨(1, 1), by simp, rfl⟩,
    (createCurveNetwork_topology_validation [vzero, vone] [(0, 1)]).2.2.2.2
      tcOk ?_⟩
  rfl

/-- Claim C9: with no solver yet, an empty caller-specified constraint set
defaults to exactly the barycenter constraint followed by the edge-length
constraints, and a non-empty set is left unchanged. -/
theorem initSolver_default_constraints (cs : List ConstraintType) :
    (cs = [] → initSolverConstraints false cs
      = [ConstraintType.barycenter, ConstraintType.edgeLengths])
    ∧ (cs ≠ [] → initSolverConstraints false cs = cs) := by
  unfold initSolverConstraints
  cases cs <;> simp

/-- Witness for C9: the defaulting theorem applied at an empty and at a
non-empty constraint list. -/
theorem initSolver_default_constraints_witness :
    initSolverConstraints false []
      = [ConstraintType.barycenter, ConstraintType.edgeLengths]
    ∧ initSolverConstraints false [ConstraintType.surfacePin]
      = [ConstraintType.surfacePin] := by
  exact ⟨(initSolver_default_constraints []).1 rfl,
    (initSolver_default_constraints [ConstraintType.surfacePin]).2 (by simp)⟩

/-- Any step size accepted by the backtracking line search is positive (the
steps tried are positive halvings of a positive initial step) and satisfies
the Armijo condition. -/
theorem backtrack_accepted_spec (Efun : ℝ → ℝ) (E0 gdot : ℝ) :
    ∀ (fuel : ℕ) (t tacc : ℝ), backtrack Efun E0 gdot fuel t = some tacc →
      0 < t → 0 < tacc ∧ Efun tacc ≤ E0 - armijoC1 * tacc * gdot := by
  intro fuel
  induction fuel with
  | zero => intro t tacc h _; cases h
  | succ n ih =>
    intro t tacc h ht
    unfold backtrack at h
    by_cases hacc : Efun t ≤ E0 - armijoC1 * t * gdot
    · rw [if_pos hacc] at h
      cases h
      exact ⟨ht, hacc⟩
    · rw [if_neg hacc] at h
      exact ih (t / 2) tacc h (by linarith)

/-- Counterexample to claim C2 as stated: with a constant energy functional
and zero gradients, the gradient inner product `⟨g, ĝ⟩` is zero, the Armijo
condition holds with equality, the line search accepts the step
(`good_step = true`), yet the energy at the new positions is not strictly
below the energy at the old positions. -/
theorem descent_claim_counterexample :
    (flowStep zeroEnergy [vzero] [vzero] [vzero]).1 = true
    ∧ ¬ (zeroEnergy (flowStep zeroEnergy [vzero] [vzero] [vzero]).2
        < zeroEnergy [vzero]) := by
  have hflow : flowStep zeroEnergy [vzero] [vzero] [vzero]
      = (true, updatePos [vzero] [vzero] 1) := by
    unfold flowStep maxHalvings
    have hcond : zeroEnergy (updatePos [vzero] [vzero] 1)
        ≤ zeroEnergy [vzero] - armijoC1 * 1 * dotLV [vzero] [vzero] := by
      simp [zeroEnergy, dotLV, vdot, vzero]
    rw [show (16 + 1 : ℕ) = 17 from rfl]
    unfold backtrack
    rw [if_pos hcond]
  rw [hflow]
  simp [zeroEnergy]

/-- Claim C2, amended: for every step the line search accepts in which the
gradient inner product `⟨g, ĝ⟩` is positive (a genuine descent direction, as
the SPD metric furnishes whenever the gradient is nonzero), the energy at
the accepted positions is strictly below the energy at the old positions;
acceptance is governed by the Armijo condition with `c₁ = 10⁻⁴`. -/
theorem accepted_step_decreases_energy (E : List Vec3 → ℝ)
    (x g ghat y : List Vec3) (h : flowStep E x g ghat = (true, y))
    (hg : 0 < dotLV g ghat) : E y < E x := by
  unfold flowStep at h
  cases hb : backtrack (fun t => E (updatePos x ghat t)) (E x) (dotLV g ghat)
      (maxHalvings + 1) 1 with
  | none => rw [hb] at h; cases h
  | some t =>
    rw [hb] at h
    have hy : y = updatePos x ghat t := by
      have := congrArg Prod.snd h
      exact this.symm
    have hspec := backtrack_accepted_spec
      (fun t => E (updatePos x ghat t)) (E x) (dotLV g ghat)
      (maxHalvings + 1) 1 t hb one_pos
    have hpos : 0 < armijoC1 * t * dotLV g ghat := by
      have hc : (0 : ℝ) < armijoC1 := by norm_num [armijoC1]
      exact mul_pos (mul_pos hc hspec.1) hg
    rw [hy]
    have := hspec.2
    simp only at this
    linarith

/-- Witness for the amended C2: a concrete accepted step with positive
gradient inner product on which the energy strictly decreases. -/
theorem accepted_step_decreases_energy_witness :
    flowStep coordEnergy [vzero] [vone] [vone] = (true, updatePos [vzero] [vone] 1)
    ∧ 0 < dotLV [vone] [vone]
    ∧ coordEnergy (updatePos [vzero] [vone] 1) < coordEnergy [vzero] := by
  have hdot : dotLV [vone] [vone] = 1 := by
    simp [dotLV, vdot, vone]
  have hflow : flowStep coordEnergy [vzero] [vone] [vone]
      = (true, updatePos [vzero] [vone] 1) := by
    unfold flowStep maxHalvings
    have hcond : coordEnergy (updatePos [vzero] [vone] 1)
        ≤ coordEnergy [vzero] - armijoC1 * 1 * dotLV [vone] [vone] := by
      rw [hdot]
      simp [coordEnergy, updatePos, vsub, vsmul, vzero, vone, armijoC1]
      norm_num
    rw [show (16 + 1 : ℕ) = 17 from rfl]
    unfold backtrack
    rw [if_pos hcond]
  refine ⟨hflow, by rw [hdot]; norm_num, ?_⟩
  exact accepted_step_decreases_energy coordEnergy [vzero] [vone] [vone]
    (updatePos [vzero] [vone] 1) hflow (by rw [hdot]; norm_num)

/-- When the energy cannot improve (every tried step has the same energy as
the start) and the gradient inner product is positive, the line search
rejects every tried step and fails. -/
theorem backtrack_const_fails (Efun : ℝ → ℝ) (E0 gdot : ℝ)
    (hE : ∀ t, Efun t = E0) (hg : 0 < gdot) :
    ∀ (fuel : ℕ) (t : ℝ), 0 < t → backtrack Efun E0 gdot fuel t = none := by
  intro fuel
  induction fuel with
  | zero => intro t _; rfl
  | succ n ih =>
    intro t ht
    unfold backtrack
    have hc : (0 : ℝ) < armijoC1 := by norm_num [armijoC1]
    have : ¬ Efun t ≤ E0 - armijoC1 * t * gdot := by
      rw [hE t]
      have : 0 < armijoC1 * t * gdot := mul_pos (mul_pos hc ht) hg
      linarith
    rw [if_neg this]
    exact ih (t / 2) (by linarith)

/-- Claim C3: when the backtracking line search exhausts its halvings, the
step reports `good_step = false` and every vertex position is returned
unchanged. -/
theorem failed_step_leaves_positions (E : List Vec3 → ℝ) (x g ghat : List Vec3)
    (h : backtrack (fun t => E (updatePos x ghat t)) (E x) (dotLV g ghat)
      (maxHalvings + 1) 1 = none) :
    flowStep E x g ghat = (false, x) := by
  unfold flowStep
  rw [h]

/-- Witness for C3: a concrete exhausted line search (constant energy,
positive gradient inner product) whose step reports failure and returns the
input positions. -/
theorem failed_step_leaves_positions_witness :
    backtrack (fun t => oneEnergy (updatePos [vzero] [vone] t)) (oneEnergy [vzero])
      (dotLV [vone] [vone]) (maxHalvings + 1) 1 = none
    ∧ flowStep oneEnergy [vzero] [vone] [vone] = (false, [vzero]) := by
  have hnone : backtrack (fun t => oneEnergy (updatePos [vzero] [vone] t))
      (oneEnergy [vzero]) (dotLV [vone] [vone]) (maxHalvings + 1) 1 = none := by
    apply backtrack_const_fails
    · intro t; rfl
    · simp [dotLV, vdot, vone]
    · norm_num
  exact ⟨hnone, failed_step_leaves_positions oneEnergy [vzero] [vone] [vone] hnone⟩

/-- Claim C4: whenever the alignment proxy `⟨g, ĝ⟩ / (‖g‖ ‖ĝ‖)` is at most
`10⁻⁴`, the solver reports `soboNormZero`, and the driver's flow-control
update after such a step stops the flow. -/
theorem soboNormZero_halts_flow (gdot gnorm ghatnorm : ℝ) (stepLimit : ℤ)
    (s : DriverFlags) (o : SolverOutcome)
    (ho : o.soboNormZero = soboNormZeroFlag gdot gnorm ghatnorm)
    (hratio : gdot / (gnorm * ghatnorm) ≤ 1 / 10000) :
    soboNormZeroFlag gdot gnorm ghatnorm = true
    ∧ (stepFlags stepLimit s o).runTPE = false := by
  have hflag : soboNormZeroFlag gdot gnorm ghatnorm = true := by
    unfold soboNormZeroFlag
    rw [if_pos hratio]
  refine ⟨hflag, ?_⟩
  have hso : o.soboNormZero = true := by rw [ho, hflag]
  unfold stepFlags
  rw [hso]
  by_cases hgs : o.good_step = false
  · rw [if_pos hgs]
    by_cases hst : stuckStopFires s o
    · rw [if_pos hst]
    · rw [if_neg hst]
      simp
  · rw [if_neg hgs]
    by_cases hl : limitStopFires stepLimit s o
    · rw [if_pos hl]
    · rw [if_neg hl]
      simp

/-- Witness for C4: a concrete step whose alignment proxy is below the
threshold; the solver flag is set and the driver stops the flow. -/
theorem soboNormZero_halts_flow_witness :
    (0 : ℝ) / (1 * 1) ≤ 1 / 10000
    ∧ soboNormZeroFlag 0 1 1 = true
    ∧ (stepFlags 0 ⟨true, 0, 0⟩ ⟨true, true, false⟩).runTPE = false := by
  have hratio : (0 : ℝ) / (1 * 1) ≤ 1 / 10000 := by norm_num
  have h := soboNormZero_halts_flow 0 1 1 0 ⟨true, 0, 0⟩ ⟨true, true, false⟩
    (by simp [soboNormZeroFlag]) hratio
  exact ⟨hratio, h.1, h.2⟩

/-- Counterexample to claim C10 as stated: after four rejected steps, an
accepted step that triggers the step-limit stop does not reset the stuck
counter; the next rejected step (taken through the single-step control)
fires the lack-of-progress stop although the immediately preceding step was
accepted, so the stop fires without 5 consecutive steps reporting
`good_step = false`. -/
theorem stuck_halt_counterexample :
    stuckStopFires
      (List.foldl (stepFlags 5) ⟨true, 0, 0⟩ [badO, badO, badO, badO, goodO]) lastO
    ∧ (stepFlags 5
        (List.foldl (stepFlags 5) ⟨true, 0, 0⟩ [badO, badO, badO, badO, goodO])
        lastO).runTPE = false
    ∧ goodO.good_step = true := by
  decide

/-- Claim C10, amended: the lack-of-progress stop fires only when, with the
solver's near-minimum flag clear, at least 5 steps have reported
`good_step = false` since the stuck counter was last reset, together with
the target length being reached; the counter is incremented by every
rejected step and reset to zero exactly by accepted steps that do not
trigger the step-limit stop (an accepted step that triggers the step-limit
stop stops the flow and leaves the counter unchanged); and on rejected
steps the transition does not consult the step limit at all. -/
theorem stuck_halt_amended (stepLimit : ℤ) (s : DriverFlags) (o : SolverOutcome) :
    (o.good_step = false → o.soboNormZero = false →
      ((stepFlags stepLimit s o).runTPE = false ↔
        (s.runTPE = false ∨ stuckStopFires s o)))
    ∧ (o.good_step = false →
      (stepFlags stepLimit s o).numStuckIterations = s.numStuckIterations + 1)
    ∧ (o.good_step = true → ¬ limitStopFires stepLimit s o →
      (stepFlags stepLimit s o).numStuckIterations = 0)
    ∧ (o.good_step = true → limitStopFires stepLimit s o →
      (stepFlags stepLimit s o).numStuckIterations = s.numStuckIterations
        ∧ (stepFlags stepLimit s o).runTPE = false)
    ∧ (o.good_step = false → stepFlags stepLimit s o = stepFlags 0 s o) := by
  refine ⟨?_, ?_, ?_, ?_, ?_⟩
  · intro hgs hso
    unfold stepFlags
    rw [if_pos hgs, hso]
    by_cases hst : stuckStopFires s o
    · rw [if_pos hst]
      simp [hst]
    · rw [if_neg hst]
      simp [hst]
  · intro hgs
    unfold stepFlags
    rw [if_pos hgs]
  · intro hgs hl
    unfold stepFlags
    rw [if_neg (by rw [hgs]; simp : ¬ o.good_step = false), if_neg hl]
  · intro hgs hl
    unfold stepFlags
    rw [if_neg (by rw [hgs]; simp : ¬ o.good_step = false), if_pos hl]
    exact ⟨rfl, rfl⟩
  · intro hgs
    unfold stepFlags
    rw [if_pos hgs, if_pos hgs]

/-- Witness for the amended C10: the transition theorem applied at a
concrete rejected step (counter increments) and at a concrete accepted step
below the step limit (counter resets). -/
theorem stuck_halt_amended_witness :
    (stepFlags 7 ⟨true, 0, 3⟩ badO).numStuckIterations = 3 + 1
    ∧ (stepFlags 7 ⟨true, 3, 5⟩ goodO).numStuckIterations = 0 := by
  exact ⟨(stuck_halt_amended 7 ⟨true, 0, 3⟩ badO).2.1 rfl,
    (stuck_halt_amended 7 ⟨true, 3, 5⟩ goodO).2.2.1 rfl (by decide)⟩

/-- A flat map producing exactly two elements per input doubles the length. -/
theorem length_flatMap_pair {α β : Type} (l : List α) (f g : α → β) :
    (l.flatMap (fun a => [f a, g a])).length = 2 * l.length := by
  induction l with
  | nil => simp
  | cons a l ih =>
    simp only [List.flatMap_cons, List.length_append, List.length_cons,
      List.length_nil, ih]
    omega

/-- Subdividing splits every edge in two, doubling the edge count. -/
theorem subdivideCurve_numEdges (c : PolyCurveNetwork) :
    (subdivideCurve c).edges.length = 2 * c.edges.length := by
  unfold subdivideCurve
  rw [length_flatMap_pair]
  simp

/-- Subdividing appends the midpoints after the original positions, so every
original vertex index keeps its position. -/
theorem subdivideCurve_positions_preserved (c : PolyCurveNetwork) (i : ℕ)
    (hi : i < c.positions.length) :
    (subdivideCurve c).positions[i]? = c.positions[i]? := by
  unfold subdivideCurve
  exact List.getElem?_append_left hi

/-- The single edge of the concrete test curve `tcSub` has length 2. -/
theorem edgeLength_tcSub : edgeLength tcSub 0 = 2 := by
  have h4 : Real.sqrt 4 = 2 := by
    rw [show (4 : ℝ) = 2 ^ 2 by norm_num]
    exact Real.sqrt_sq (by norm_num)
  unfold edgeLength dist3 distSq normSq vdot vsub posAt edgeAt tcSub
  norm_num
  exact h4

/-- The average length of the concrete test curve `tcSub` is 2. -/
theorem averageLength_tcSub : averageLength tcSub = 2 := by
  unfold averageLength totalLength
  rw [show tcSub.edges.length = 1 from rfl, show List.range 1 = [0] from rfl]
  simp only [List.map_cons, List.map_nil, List.sum_cons, List.sum_nil]
  rw [edgeLength_tcSub]
  norm_num

/-- Counterexample to claim C5 as stated: a step after which the average
edge length exceeds twice the initial average edge length but the
subdivision counter has reached the subdivision limit; the driver does not
subdivide and the edge count stays at 1 instead of doubling. -/
theorem subdivision_claim_counterexample :
    2 * ((1 : ℝ) / 2) < averageLength tcSub
    ∧ subdivisionPhase 1 ((1 : ℝ) / 2) ⟨1, tcSub, true⟩ = ⟨1, tcSub, true⟩
    ∧ (subdivisionPhase 1 ((1 : ℝ) / 2) ⟨1, tcSub, true⟩).curve.edges.length
        = tcSub.edges.length
    ∧ tcSub.edges.length = 1 := by
  have havg : 2 * ((1 : ℝ) / 2) < averageLength tcSub := by
    rw [averageLength_tcSub]; norm_num
  have hphase : subdivisionPhase 1 ((1 : ℝ) / 2) ⟨1, tcSub, true⟩
      = ⟨1, tcSub, true⟩ := by
    unfold subdivisionPhase
    rw [if_neg]
    intro h
    exact absurd h.2 (by norm_num)
  exact ⟨havg, hphase, by rw [hphase], rfl⟩

/-- Claim C5, amended: after every step in which the average edge length
exceeds twice the initial average edge length and the subdivision counter is
below the subdivision limit, the counter is incremented and the curve is
subdivided with the caches invalidated: every edge is split at its midpoint
so the edge count doubles, positions at original vertex indices are
preserved, and the pins (which keep their original vertex numbering) are
carried over. -/
theorem subdivision_trigger_amended (subdivideLimit : ℤ)
    (initialAverageLength : ℝ) (s : SubdivisionState)
    (havg : 2 * initialAverageLength < averageLength s.curve)
    (hcount : s.subdivideCount < subdivideLimit) :
    subdivisionPhase subdivideLimit initialAverageLength s
      = ⟨s.subdivideCount + 1, subdivideCurve s.curve, false⟩
    ∧ (subdivideCurve s.curve).edges.length = 2 * s.curve.edges.length
    ∧ (∀ i, i < s.curve.positions.length →
        (subdivideCurve s.curve).positions[i]? = s.curve.positions[i]?)
    ∧ (subdivideCurve s.curve).pins = s.curve.pins := by
  refine ⟨?_, subdivideCurve_numEdges s.curve,
    fun i hi => subdivideCurve_positions_preserved s.curve i hi, rfl⟩
  unfold subdivisionPhase
  rw [if_pos ⟨havg, hcount⟩]

/-- Witness for the amended C5: the subdivision theorem applied at a
concrete curve whose average length exceeds twice the given initial average,
with the counter below the limit. -/
theorem subdivision_trigger_amended_witness :
    2 * ((1 : ℝ) / 2) < averageLength tcSub
    ∧ (0 : ℤ) < 1
    ∧ subdivisionPhase 1 ((1 : ℝ) / 2) ⟨0, tcSub, true⟩
        = ⟨0 + 1, subdivideCurve tcSub, false⟩
    ∧ (subdivideCurve tcSub).edges.length = 2 * tcSub.edges.length := by
  have havg : 2 * ((1 : ℝ) / 2) < averageLength tcSub := by
    rw [averageLength_tcSub]; norm_num
  have h := subdivision_trigger_amended 1 ((1 : ℝ) / 2) ⟨0, tcSub, true⟩
    havg (by norm_num)
  exact ⟨havg, by norm_num, h.1, h.2.1⟩

/-- Claim C6: block-cluster-tree construction fails with InvalidExponents
whenever the exponents violate the precondition (alpha nonpositive or beta
at most alpha plus one), and succeeds in producing a BCT handle when the
separation ratio is positive and the exponent precondition holds on a valid
curve. -/
theorem createBCT_exponent_validation (c : PolyCurveNetwork)
    (sep alpha beta : ℝ) :
    ((alpha ≤ 0 ∨ beta ≤ alpha + 1) →
      createBlockClusterTree c sep alpha beta
        = Except.error ErrorKind.invalidExponents)
    ∧ (0 < sep → 0 < alpha → alpha + 1 < beta →
      ∃ b, createBlockClusterTree c sep alpha beta = Except.ok b) := by
  unfold createBlockClusterTree
  constructor
  · intro h
    rw [if_pos h]
  · intro _ ha hb
    rw [if_neg (by push_neg; exact ⟨ha, hb⟩)]
    exact ⟨buildBlockClusterTree c sep alpha beta, rfl⟩

/-- Witness for C6: the validation theorem applied at concrete invalid
exponents (failure) and at the project defaults `α = 3`, `β = 6` with
`sep = 1` (success). -/
theorem createBCT_exponent_validation_witness :
    ((0 : ℝ) ≤ 0 ∨ (4 : ℝ) ≤ 0 + 1)
    ∧ createBlockClusterTree tcSub 1 0 4 = Except.error ErrorKind.invalidExponents
    ∧ (0 : ℝ) < 1 ∧ (0 : ℝ) < 3 ∧ (3 : ℝ) + 1 < 6
    ∧ ∃ b, createBlockClusterTree tcSub 1 3 6 = Except.ok b := by
  exact ⟨Or.inl le_rfl,
    (createBCT_exponent_validation tcSub 1 0 4).1 (Or.inl le_rfl),
    by norm_num, by norm_num, by norm_num,
    (createBCT_exponent_validation tcSub 1 3 6).2 (by norm_num) (by norm_num)
      (by norm_num)⟩

/-- Claim C8: `evaluateGradient` fills an edge-indexed output with exactly
one entry per edge: for every curve its length equals the number of edges,
and entry `i` is the gradient contribution of edge `i`. -/
theorem evaluateGradient_edge_indexed (c : PolyCurveNetwork) (root : BVHNode3D)
    (alpha beta : ℝ) :
    (evaluateGradient c root alpha beta).length = c.edges.length
    ∧ (∀ i, i < c.edges.length →
      (evaluateGradient c root alpha beta)[i]?
        = some (gradientAtEdge c alpha beta i)) := by
  constructor
  · unfold evaluateGradient
    simp
  · intro i hi
    unfold evaluateGradient
    simp [List.getElem?_map, List.getElem?_range hi]

/-- Witness for C8: the edge-indexing theorem applied at a concrete
one-edge curve and its BVH handle. -/
theorem evaluateGradient_edge_indexed_witness :
    0 < tcSub.edges.length
    ∧ (evaluateGradient tcSub (createBVHForEnergy tcSub) 3 6)[0]?
        = some (gradientAtEdge tcSub 3 6 0) := by
  exact ⟨by norm_num [tcSub],
    (evaluateGradient_edge_indexed tcSub (createBVHForEnergy tcSub) 3 6).2 0
      (by norm_num [tcSub])⟩

/-- Distributing a dot product over an applied operator written as a list of
contributions plus a remainder. -/
theorem dot_listsum {α : Type} {m : ℕ} (l : List α) (f : α → Fin m → ℝ)
    (g w : Fin m → ℝ) :
    ∑ i, ((l.map (fun a => f a i)).sum + g i) * w i
      = (l.map (fun a => ∑ i, f a i * w i)).sum + ∑ i, g i * w i := by
  induction l with
  | nil => simp
  | cons a t ih =>
    simp only [List.map_cons, List.sum_cons]
    have hsplit : ∀ i : Fin m,
        (f a i + (t.map (fun x => f x i)).sum + g i) * w i
          = f a i * w i + ((t.map (fun x => f x i)).sum + g i) * w i := by
      intro i; ring
    rw [Finset.sum_congr rfl (fun i _ => hsplit i), Finset.sum_add_distrib, ih]
    ring

/-- The dot product of an admissible block's contribution against a test
vector, in closed form: the two scatter directions reduce to products of
cluster aggregates. -/
theorem adm_inner_eq {m : ℕ} (b : BlockClusterTree m) (blk : AdmBlock m)
    (v w : Fin m → ℝ) :
    ∑ i, admContribution b blk v i * w i
      = b.kernelProfile (distSq blk.cA blk.cB)
          * ((∑ j ∈ blk.B, b.ell j * v j) * (∑ i ∈ blk.A, b.ell i * w i))
        + b.kernelProfile (distSq blk.cB blk.cA)
          * ((∑ j ∈ blk.A, b.ell j * v j) * (∑ i ∈ blk.B, b.ell i * w i)) := by
  unfold admContribution
  have hsplit : ∀ i : Fin m,
      ((if i ∈ blk.A then
          b.ell i * b.kernelProfile (distSq blk.cA blk.cB)
            * ∑ j ∈ blk.B, b.ell j * v j else 0)
        + (if i ∈ blk.B then
          b.ell i * b.kernelProfile (distSq blk.cB blk.cA)
            * ∑ j ∈ blk.A, b.ell j * v j else 0)) * w i
      = (if i ∈ blk.A then
          b.kernelProfile (distSq blk.cA blk.cB)
            * (∑ j ∈ blk.B, b.ell j * v j) * (b.ell i * w i) else 0)
        + (if i ∈ blk.B then
          b.kernelProfile (distSq blk.cB blk.cA)
            * (∑ j ∈ blk.A, b.ell j * v j) * (b.ell i * w i) else 0) := by
    intro i
    by_cases hA : i ∈ blk.A <;> by_cases hB : i ∈ blk.B <;> simp [hA, hB] <;> ring
  rw [Finset.sum_congr rfl (fun i _ => hsplit i), Finset.sum_add_distrib,
    Fintype.sum_ite_mem, Fintype.sum_ite_mem, ← Finset.mul_sum, ← Finset.mul_sum]
  ring

/-- Symmetry of one admissible block's contribution: testing the image of
`v` against `w` equals testing the image of `w` against `v`. -/
theorem adm_inner_symm {m : ℕ} (b : BlockClusterTree m) (blk : AdmBlock m)
    (v w : Fin m → ℝ) :
    ∑ i, admContribution b blk v i * w i
      = ∑ i, admContribution b blk w i * v i := by
  rw [adm_inner_eq, adm_inner_eq, distSq_comm blk.cB blk.cA]
  ring

/-- The dot product of one inadmissible pair's symmetrized contribution
against a test vector, in closed form. -/
theorem inadm_inner_eq {m : ℕ} (b : BlockClusterTree m) (p : Fin m × Fin m)
    (v w : Fin m → ℝ) :
    ∑ i, inadmContribution b p v i * w i
      = (1 / 2) * (b.ell p.1 * b.kernelProfile (distSq (b.mid p.1) (b.mid p.2))
          * b.ell p.2) * (v p.2 * w p.1)
        + (1 / 2) * (b.ell p.2 * b.kernelProfile (distSq (b.mid p.2) (b.mid p.1))
          * b.ell p.1) * (v p.1 * w p.2) := by
  unfold inadmContribution
  have hsplit : ∀ i : Fin m,
      ((1 / 2) * (if i = p.1 then
          b.ell p.1 * b.kernelProfile (distSq (b.mid p.1) (b.mid p.2))
            * b.ell p.2 * v p.2 else 0)
        + (1 / 2) * (if i = p.2 then
          b.ell p.2 * b.kernelProfile (distSq (b.mid p.2) (b.mid p.1))
            * b.ell p.1 * v p.1 else 0)) * w i
      = (if i = p.1 then
          (1 / 2) * (b.ell p.1 * b.kernelProfile (distSq (b.mid p.1) (b.mid p.2))
            * b.ell p.2) * (v p.2 * w i) else 0)
        + (if i = p.2 then
          (1 / 2) * (b.ell p.2 * b.kernelProfile (distSq (b.mid p.2) (b.mid p.1))
            * b.ell p.1) * (v p.1 * w i) else 0) := by
    intro i
    by_cases h1 : i = p.1
    · by_cases h2 : i = p.2
      · rw [if_pos h1, if_pos h2, if_pos h1, if_pos h2]; ring
      · rw [if_pos h1, if_neg h2, if_pos h1, if_neg h2]; ring
    · by_cases h2 : i = p.2
      · rw [if_neg h1, if_pos h2, if_neg h1, if_pos h2]; ring
      · rw [if_neg h1, if_neg h2, if_neg h1, if_neg h2]; ring
  rw [Finset.sum_congr rfl (fun i _ => hsplit i), Finset.sum_add_distrib,
    Fintype.sum_ite_eq', Fintype.sum_ite_eq']

/-- Symmetry of one inadmissible pair's symmetrized contribution. -/
theorem inadm_inner_symm {m : ℕ} (b : BlockClusterTree m) (p : Fin m × Fin m)
    (v w : Fin m → ℝ) :
    ∑ i, inadmContribution b p v i * w i
      = ∑ i, inadmContribution b p w i * v i := by
  rw [inadm_inner_eq, inadm_inner_eq, distSq_comm (b.mid p.2) (b.mid p.1)]
  ring

/-- Claim C1: the metric apply is symmetric as a bilinear form: for every
block-cluster tree over a curve with m edges and every pair of edge-indexed
vectors of length m, the dot product of `apply_metric(bct, v)` with `w`
equals the dot product of `v` with `apply_metric(bct, w)` (exactly, hence in
particular within the admissibility tolerance). -/
theorem multiplyMetric_symmetric (m : ℕ) (b : BlockClusterTree m)
    (v w : Fin m → ℝ) :
    dotFin (multiplyMetricWithVector b v) w
      = dotFin v (multiplyMetricWithVector b w) := by
  unfold dotFin multiplyMetricWithVector
  have hR : ∀ i : Fin m,
      v i * ((b.admBlocks.map (fun blk => admContribution b blk w i)).sum
        + (b.inadmBlocks.map (fun p => inadmContribution b p w i)).sum
        + b.diag i * w i)
      = ((b.admBlocks.map (fun blk => admContribution b blk w i)).sum
        + ((b.inadmBlocks.map (fun p => inadmContribution b p w i)).sum
          + b.diag i * w i)) * v i := by
    intro i; ring
  rw [Finset.sum_congr rfl (fun i _ => hR i)]
  have hL : ∀ i : Fin m,
      ((b.admBlocks.map (fun blk => admContribution b blk v i)).sum
        + (b.inadmBlocks.map (fun p => inadmContribution b p v i)).sum
        + b.diag i * v i) * w i
      = ((b.admBlocks.map (fun blk => admContribution b blk v i)).sum
        + ((b.inadmBlocks.map (fun p => inadmContribution b p v i)).sum
          + b.diag i * v i)) * w i := by
    intro i; ring
  rw [Finset.sum_congr rfl (fun i _ => hL i)]
  rw [dot_listsum b.admBlocks (fun blk i => admContribution b blk v i)
    (fun i => (b.inadmBlocks.map (fun p => inadmContribution b p v i)).sum
      + b.diag i * v i) w]
  rw [dot_listsum b.admBlocks (fun blk i => admContribution b blk w i)
    (fun i => (b.inadmBlocks.map (fun p => inadmContribution b p w i)).sum
      + b.diag i * w i) v]
  rw [dot_listsum b.inadmBlocks (fun p i => inadmContribution b p v i)
    (fun i => b.diag i * v i) w]
  rw [dot_listsum b.inadmBlocks (fun p i => inadmContribution b p w i)
    (fun i => b.diag i * w i) v]
  rw [List.map_congr_left
    (fun blk _ => adm_inner_symm b blk v w)]
  rw [List.map_congr_left
    (fun p _ => inadm_inner_symm b p v w)]
  rw [Finset.sum_congr rfl
    (fun i _ => by ring : ∀ i ∈ Finset.univ, b.diag i * v i * w i
      = b.diag i * w i * v i)]

end Theorems

end LWS
